import Mathlib

/-!
Shallow embedding of `src/kge/dataset.py` (class `Dataset`): the grouped
1-to-N index builder (`group_by_sp_po`), the memoizing accessor
(`index_1toN`), the compact array view (`prepare_index`), and the
relation-type classifier (`_get_relation_types`).

Modelling conventions:
* identifiers (entity/relation ids) are `Nat` (the data model uses dense
  non-negative integer ids);
* a triple `(s, p, o)` is `Nat × Nat × Nat`;
* the Python `OrderedDict`/`defaultdict` grouped index is an association
  list `List ((Nat × Nat) × List Nat)` in insertion (first-seen key) order
  with distinct keys;
* `torch` tensors are lists; `tensor.tolist()` round trips are identities;
* fallible operations return `Except Unit` (a raised `ValueError` /
  `IndexError` / `RuntimeError` is `.error ()`);
* the float statistics tensor of `_get_relation_types` holds integer
  values throughout (sums of int ids and counters), and the comparison
  `total / groups > 1.5` on those values is embedded exactly as
  `2 * total > 3 * groups`; this agrees with IEEE semantics on the
  integers involved, including `0 / 0 = NaN > 1.5 = False` and
  `t / 0 = inf > 1.5 = True` for `t > 0`.
-/

namespace KGE

/-- A triple `(s, p, o)` of entity/relation identifiers. -/
abbrev Triple := Nat × Nat × Nat

/-- The grouped index: key pair to completion list, in insertion order
(the Python `OrderedDict(defaultdict(list))` of `group_by_sp_po`). -/
abbrev GroupedIndex := List ((Nat × Nat) × List Nat)

/-- One `result[tuple(sp_po)].append(o_s)` step on a `defaultdict(list)`:
append `v` to the list of key `k`, creating the key at the end of the
dict (insertion order) when absent. -/
def groupInsert (k : Nat × Nat) (v : Nat) : GroupedIndex → GroupedIndex
  | [] => [(k, [v])]
  | g :: rest =>
      if g.1 = k then (g.1, g.2 ++ [v]) :: rest else g :: groupInsert k v rest

/-- The first loop of `group_by_sp_po`: fold all `(key, value)` rows into
the `defaultdict`, preserving first-seen key order. -/
def groupPairs (pairs : List ((Nat × Nat) × Nat)) : GroupedIndex :=
  pairs.foldl (fun acc kv => groupInsert kv.1 kv.2 acc) []

/-- Python's `sorted` on a list of ids (ascending). -/
def sortNat (l : List Nat) : List Nat :=
  List.insertionSort (· ≤ ·) l

/-- The second loop of `group_by_sp_po` applied to a built dict:
`result[sp_po] = torch.IntTensor(sorted(o_s))` for every key. -/
def groupSorted (pairs : List ((Nat × Nat) × Nat)) : GroupedIndex :=
  (groupPairs pairs).map fun g => (g.1, sortNat g.2)

/-- `Dataset.group_by_sp_po(sp_po_list, o_s_list)`: zip the key column
pair with the value column, group, and sort each group's list. -/
def group_by_sp_po (sp_po_list : List (Nat × Nat)) (o_s_list : List Nat) :
    GroupedIndex :=
  groupSorted (sp_po_list.zip o_s_list)

/-- Key/value rows for direction `sp`: key `(s, p)` (columns 0, 1),
value `o` (column 2). -/
def spPairs (triples : List Triple) : List ((Nat × Nat) × Nat) :=
  triples.map fun t => ((t.1, t.2.1), t.2.2)

/-- Key/value rows for direction `po`: key `(p, o)` (columns 1, 2),
value `s` (column 0). -/
def poPairs (triples : List Triple) : List ((Nat × Nat) × Nat) :=
  triples.map fun t => ((t.2.1, t.2.2), t.1)

/-- The grouped index `group_by_sp_po(triples[:, [0, 1]], triples[:, 2])`
built for a split in direction `sp`. -/
def spIndexOf (triples : List Triple) : GroupedIndex :=
  group_by_sp_po (triples.map fun t => (t.1, t.2.1)) (triples.map fun t => t.2.2)

/-- The grouped index `group_by_sp_po(triples[:, [1, 2]], triples[:, 0])`
built for a split in direction `po`. -/
def poIndexOf (triples : List Triple) : GroupedIndex :=
  group_by_sp_po (triples.map fun t => (t.2.1, t.2.2)) (triples.map fun t => t.1)

/-- Dict lookup on a grouped index returning the completion list of `k`
(`[]` when absent); matches the first occurrence of the key. -/
def getGroup (k : Nat × Nat) : GroupedIndex → List Nat
  | [] => []
  | g :: rest => if g.1 = k then g.2 else getGroup k rest

/-- The values of all rows whose key is `k`, in row order: the contents
the `defaultdict` accumulates for `k` before sorting. -/
def valuesFor (k : Nat × Nat) (pairs : List ((Nat × Nat) × Nat)) : List Nat :=
  (pairs.filter fun kv => kv.1 = k).map Prod.snd

/-- Running sums: `cumsumFrom a [x₁, x₂, …] = [a+x₁, a+x₁+x₂, …]`. -/
def cumsumFrom (a : Nat) : List Nat → List Nat
  | [] => []
  | x :: xs => (a + x) :: cumsumFrom (a + x) xs

/-- `torch.cumsum` (inclusive prefix sums). -/
def cumsum (l : List Nat) : List Nat :=
  cumsumFrom 0 l

/-- `Dataset.prepare_index(index)`: keys tensor, concatenated values,
and offsets `cumsum([0] + group lengths)`.  `torch.cat` rejects an empty
list of tensors, so an index with no keys raises (`none`); the keys
tensor and the offsets would be constructible, the concatenation is not. -/
def prepare_index (index : GroupedIndex) :
    Option (List (Nat × Nat) × List Nat × List Nat) :=
  if index.isEmpty then none
  else
    some (index.map Prod.fst,
          (index.map Prod.snd).flatten,
          cumsum (0 :: index.map fun g => g.2.length))

/-- One iteration of the statistics loop of `_get_relation_types` for a
group with relation `r` whose completion tensor sums (as ids) to
`labelSum`: `relation_stats[r, c] = labels.float().sum()` (an overwrite,
not an accumulation) and `relation_stats[r, c+1] += 1`.  The state maps a
relation id to its (sum column, group-count column) pair. -/
def statStep (stats : Nat → Nat × Nat) (r : Nat) (labelSum : Nat) :
    Nat → Nat × Nat :=
  fun q => if q = r then (labelSum, (stats r).2 + 1) else stats q

/-- The statistics loop of `_get_relation_types` over one grouped index:
`getP` extracts the relation id from a key (`prefix[1]` for the `sp`
index, `prefix[0]` for the `po` index).  Writing a row `≥ num_relations`
is an out-of-bounds tensor write (`IndexError`), hence `.error ()`. -/
def applyStats (nr : Nat) (getP : Nat × Nat → Nat) :
    List ((Nat × Nat) × List Nat) → (Nat → Nat × Nat) →
    Except Unit (Nat → Nat × Nat)
  | [], stats => .ok stats
  | g :: rest, stats =>
      if getP g.1 < nr then
        applyStats nr getP rest (statStep stats (getP g.1) g.2.sum)
      else
        .error ()

/-- The float comparison `total / groups > 1.5` of lines 213-214,
embedded exactly on the integer-valued statistics (see module comment):
`NaN` (0/0) and any quotient `≤ 1.5` give `False`. -/
def exceeds (total groups : Nat) : Bool :=
  3 * groups < 2 * total

/-- `Dataset._get_relation_types()` specialised to the state at `Dataset`
construction, where the index cache is empty and `index_1toN('train', _)`
therefore builds the two grouped indexes of the training split.  Column
pairs (2, 3) are fed from the `sp` index via `prefix[1]`, columns (0, 1)
from the `po` index via `prefix[0]`; the label's first character comes
from columns (0, 1) (`'M'` when the quotient exceeds 1.5) and the second
from columns (2, 3) (`'N'` when it exceeds 1.5). -/
def get_relation_types (nr : Nat) (train : List Triple) :
    Except Unit (Nat → String) := do
  let outS ← applyStats nr (fun k => k.2) (spIndexOf train) (fun _ => (0, 0))
  let inS ← applyStats nr (fun k => k.1) (poIndexOf train) (fun _ => (0, 0))
  pure fun i =>
    (if exceeds (inS i).1 (inS i).2 then "M" else "1") ++ "-" ++
    (if exceeds (outS i).1 (outS i).2 then "N" else "1")

/-- The statistic the specification prescribes for the object side: the
sum, over the keys `(s, p)` of the training `sp` index with relation `p`,
of the key's completion-list length. -/
def outTotalSpec (train : List Triple) (p : Nat) : Nat :=
  (((spIndexOf train).filter fun g => g.1.2 = p).map fun g => g.2.length).sum

/-- The number of `(s, p)` keys of the training `sp` index with relation
`p` (the specification's `out_groups[p]`). -/
def outGroupsSpec (train : List Triple) (p : Nat) : Nat :=
  ((spIndexOf train).filter fun g => g.1.2 = p).length

/-- The `Dataset` state the index accessor operates on: the three triple
splits and the `self.indexes` cache (a dict from index name to grouped
index, modelled as an association list in insertion order). -/
structure Dataset where
  num_entities : Nat
  num_relations : Nat
  train : List Triple
  valid : List Triple
  test : List Triple
  indexes : List (String × GroupedIndex)

/-- Dict assignment `d[name] = v`: replace in place when the key exists,
append otherwise. -/
def assocSet (name : String) (v : GroupedIndex) :
    List (String × GroupedIndex) → List (String × GroupedIndex)
  | [] => [(name, v)]
  | e :: rest =>
      if e.1 = name then (e.1, v) :: rest else e :: assocSet name v rest

/-- Truthiness of `self.indexes.get(name)`: falsy when the key is absent
(`None`) and also when the cached value is an empty dict. -/
def cacheFalsy (c : Option GroupedIndex) : Bool :=
  match c with
  | none => true
  | some idx => idx.isEmpty

/-- `Dataset.index_1toN(split, sp_po)`.  Returns the result (or the
raised `ValueError`), the updated `Dataset` state, and whether this call
invoked the grouping builder.  Both argument checks precede any cache
access, so on error the state is returned unchanged. -/
def index_1toN (d : Dataset) (split sp_po : String) :
    Except Unit GroupedIndex × Dataset × Bool :=
  let tripE : Except Unit (List Triple) :=
    if split = "train" then .ok d.train
    else if split = "valid" then .ok d.valid
    else if split = "test" then .ok d.test
    else .error ()
  match tripE with
  | .error _ => (.error (), d, false)
  | .ok triples =>
    let idxE : Except Unit GroupedIndex :=
      if sp_po = "sp" then .ok (spIndexOf triples)
      else if sp_po = "po" then .ok (poIndexOf triples)
      else .error ()
    match idxE with
    | .error _ => (.error (), d, false)
    | .ok built =>
      let name := split ++ "_" ++ sp_po
      if cacheFalsy (d.indexes.lookup name) then
        (.ok built, { d with indexes := assocSet name built d.indexes }, true)
      else
        match d.indexes.lookup name with
        | some idx => (.ok idx, d, false)
        | none => (.error (), d, false)

/-- `Dataset.__init__`: stores the splits and counts and eagerly computes
`self.relation_types = self._get_relation_types()`, which builds and
caches the two training indexes (the cache starts empty).  A raised
`IndexError` aborts construction. -/
def datasetInit (ne nr : Nat) (train valid test : List Triple) :
    Except Unit (Dataset × (Nat → String)) :=
  (get_relation_types nr train).map fun f =>
    ({ num_entities := ne, num_relations := nr,
       train := train, valid := valid, test := test,
       indexes := assocSet "train_po" (poIndexOf train)
         (assocSet "train_sp" (spIndexOf train) []) }, f)

end KGE

namespace KGE

theorem valuesFor_nil (k : Nat × Nat) : valuesFor k [] = [] := rfl

theorem valuesFor_cons (k : Nat × Nat) (kv : (Nat × Nat) × Nat)
    (rest : List ((Nat × Nat) × Nat)) :
    valuesFor k (kv :: rest) =
      if kv.1 = k then kv.2 :: valuesFor k rest else valuesFor k rest := by
  simp only [valuesFor, List.filter_cons]
  by_cases h : kv.1 = k <;> simp [h]

theorem mem_valuesFor (k : Nat × Nat) (v : Nat)
    (pairs : List ((Nat × Nat) × Nat)) :
    v ∈ valuesFor k pairs ↔ (k, v) ∈ pairs := by
  induction pairs with
  | nil => simp [valuesFor]
  | cons kv rest ih =>
      rw [valuesFor_cons]
      obtain ⟨k0, v0⟩ := kv
      by_cases h : k0 = k
      · subst h
        simp [ih, eq_comm]
      · have h2 : k ≠ k0 := Ne.symm h
        simp [h, h2, ih]

theorem getGroup_cons (k : Nat × Nat) (e : (Nat × Nat) × List Nat)
    (rest : GroupedIndex) :
    getGroup k (e :: rest) = if e.1 = k then e.2 else getGroup k rest := rfl

theorem getGroup_groupInsert (k k' : Nat × Nat) (v : Nat) (g : GroupedIndex) :
    getGroup k' (groupInsert k v g) =
      getGroup k' g ++ (if k' = k then [v] else []) := by
  induction g with
  | nil =>
      by_cases h : k' = k
      · subst h; simp [groupInsert, getGroup]
      · have h2 : ¬ k = k' := fun hh => h hh.symm
        simp [groupInsert, getGroup, h, h2]
  | cons e rest ih =>
      by_cases h1 : e.1 = k
      · by_cases h2 : e.1 = k'
        · have hk : k' = k := h2.symm.trans h1
          simp [groupInsert, getGroup, h1, h2, hk]
        · have hk : ¬ k' = k := fun hh => h2 (h1.trans hh.symm)
          have hk2 : ¬ k = k' := fun hh => hk hh.symm
          simp [groupInsert, getGroup, h1, h2, hk, hk2]
      · by_cases h2 : e.1 = k'
        · have hk : ¬ k' = k := fun hh => h1 (h2.trans hh)
          simp [groupInsert, getGroup, h1, h2, hk]
        · simp [groupInsert, getGroup, h1, h2, ih]

theorem keys_groupInsert (k : Nat × Nat) (v : Nat) (g : GroupedIndex) :
    (groupInsert k v g).map Prod.fst =
      if k ∈ g.map Prod.fst then g.map Prod.fst
      else g.map Prod.fst ++ [k] := by
  induction g with
  | nil => simp [groupInsert]
  | cons e rest ih =>
      by_cases h1 : e.1 = k
      · simp [groupInsert, h1]
      · have : ¬ k = e.1 := fun hh => h1 hh.symm
        by_cases h2 : k ∈ rest.map Prod.fst <;>
          simp [groupInsert, h1, ih, this, h2]

theorem nodupKeys_groupInsert (k : Nat × Nat) (v : Nat) (g : GroupedIndex)
    (h : (g.map Prod.fst).Nodup) :
    ((groupInsert k v g).map Prod.fst).Nodup := by
  rw [keys_groupInsert]
  by_cases hm : k ∈ g.map Prod.fst
  · simpa [hm]
  · simpa [hm, List.nodup_append] using h

theorem nonempty_values_groupInsert (k : Nat × Nat) (v : Nat)
    (g : GroupedIndex) (h : ∀ e ∈ g, e.2 ≠ []) :
    ∀ e ∈ groupInsert k v g, e.2 ≠ [] := by
  induction g with
  | nil => simp [groupInsert]
  | cons e0 rest ih =>
      by_cases h1 : e0.1 = k
      · intro e he
        simp only [groupInsert, h1, if_pos] at he
        rcases List.mem_cons.mp he with he | he
        · subst he; simp
        · exact h e (List.mem_cons_of_mem _ he)
      · intro e he
        simp only [groupInsert, h1, if_neg, not_false_iff] at he
        rcases List.mem_cons.mp he with he | he
        · rw [he]; exact h e0 (List.mem_cons_self _ _)
        · exact ih (fun x hx => h x (List.mem_cons_of_mem _ hx)) e he

theorem getGroup_foldl (pairs : List ((Nat × Nat) × Nat)) (acc : GroupedIndex)
    (k : Nat × Nat) :
    getGroup k (pairs.foldl (fun a kv => groupInsert kv.1 kv.2 a) acc) =
      getGroup k acc ++ valuesFor k pairs := by
  induction pairs generalizing acc with
  | nil => simp [valuesFor]
  | cons kv rest ih =>
      rw [List.foldl_cons, ih, getGroup_groupInsert, valuesFor_cons]
      by_cases h : kv.1 = k
      · simp [h, List.append_assoc]
      · have h2 : ¬ k = kv.1 := fun hh => h hh.symm
        simp [h, h2]

theorem getGroup_groupPairs (pairs : List ((Nat × Nat) × Nat))
    (k : Nat × Nat) :
    getGroup k (groupPairs pairs) = valuesFor k pairs := by
  simpa [getGroup] using getGroup_foldl pairs [] k

theorem nodupKeys_foldl (pairs : List ((Nat × Nat) × Nat))
    (acc : GroupedIndex) (h : (acc.map Prod.fst).Nodup) :
    (((pairs.foldl (fun a kv => groupInsert kv.1 kv.2 a) acc)).map
        Prod.fst).Nodup := by
  induction pairs generalizing acc with
  | nil => simpa using h
  | cons kv rest ih =>
      rw [List.foldl_cons]
      exact ih _ (nodupKeys_groupInsert _ _ _ h)

theorem nodupKeys_groupPairs (pairs : List ((Nat × Nat) × Nat)) :
    ((groupPairs pairs).map Prod.fst).Nodup :=
  nodupKeys_foldl pairs [] (by simp)

theorem nonempty_values_foldl (pairs : List ((Nat × Nat) × Nat))
    (acc : GroupedIndex) (h : ∀ e ∈ acc, e.2 ≠ []) :
    ∀ e ∈ pairs.foldl (fun a kv => groupInsert kv.1 kv.2 a) acc, e.2 ≠ [] := by
  induction pairs generalizing acc with
  | nil => simpa using h
  | cons kv rest ih =>
      rw [List.foldl_cons]
      exact ih _ (nonempty_values_groupInsert _ _ _ h)

theorem nonempty_values_groupPairs (pairs : List ((Nat × Nat) × Nat)) :
    ∀ e ∈ groupPairs pairs, e.2 ≠ [] :=
  nonempty_values_foldl pairs [] (by simp)

theorem getGroup_ne_nil_iff (k : Nat × Nat) (g : GroupedIndex)
    (hne : ∀ e ∈ g, e.2 ≠ []) :
    getGroup k g ≠ [] ↔ k ∈ g.map Prod.fst := by
  induction g with
  | nil => simp [getGroup]
  | cons e rest ih =>
      by_cases h : e.1 = k
      · simp only [getGroup, h, if_pos]
        constructor
        · intro _; exact List.mem_map.mpr ⟨e, List.mem_cons_self _ _, h⟩
        · intro _; exact hne e (List.mem_cons_self _ _)
      · simp only [getGroup, h, if_neg, not_false_iff]
        rw [ih (fun x hx => hne x (List.mem_cons_of_mem _ hx))]
        simp only [List.map_cons, List.mem_cons]
        constructor
        · intro hm; exact Or.inr hm
        · rintro (hm | hm)
          · exact absurd hm.symm h
          · exact hm

theorem mem_of_nodupKeys (g : GroupedIndex) (k : Nat × Nat) (l : List Nat)
    (hnd : (g.map Prod.fst).Nodup) (hm : (k, l) ∈ g) :
    getGroup k g = l := by
  induction g with
  | nil => cases hm
  | cons e rest ih =>
      rw [List.map_cons, List.nodup_cons] at hnd
      rcases List.mem_cons.mp hm with he | he
      · rw [getGroup_cons, ← he]
        simp
      · have hk : k ∈ rest.map Prod.fst :=
          List.mem_map.mpr ⟨(k, l), he, rfl⟩
        have hne : e.1 ≠ k := fun hh => hnd.1 (hh.symm ▸ hk)
        rw [getGroup_cons, if_neg hne]
        exact ih hnd.2 he

theorem mem_getGroup_self (g : GroupedIndex) (k : Nat × Nat)
    (hm : k ∈ g.map Prod.fst) : (k, getGroup k g) ∈ g := by
  induction g with
  | nil => simp at hm
  | cons e rest ih =>
      by_cases h : e.1 = k
      · simp only [getGroup, h, if_pos]
        exact List.mem_cons.mpr (Or.inl (by rw [← h]))
      · simp only [getGroup, h, if_neg, not_false_iff]
        have : k ∈ rest.map Prod.fst := by
          rcases List.mem_map.mp hm with ⟨x, hx, hxk⟩
          rcases List.mem_cons.mp hx with hx | hx
          · exact absurd (hx ▸ hxk) h
          · exact List.mem_map.mpr ⟨x, hx, hxk⟩
        exact List.mem_cons_of_mem _ (ih this)

end KGE

namespace KGE

theorem sortNat_perm (l : List Nat) : List.Perm (sortNat l) l :=
  List.perm_insertionSort (· ≤ ·) l

theorem sortNat_sorted (l : List Nat) : List.Sorted (· ≤ ·) (sortNat l) :=
  List.sorted_insertionSort (· ≤ ·) l

theorem mem_sortNat (v : Nat) (l : List Nat) : v ∈ sortNat l ↔ v ∈ l :=
  (sortNat_perm l).mem_iff

theorem length_sortNat (l : List Nat) : (sortNat l).length = l.length :=
  (sortNat_perm l).length_eq

theorem sortNat_nil : sortNat [] = [] := rfl

theorem getGroup_groupSorted (pairs : List ((Nat × Nat) × Nat))
    (k : Nat × Nat) :
    getGroup k (groupSorted pairs) = sortNat (valuesFor k pairs) := by
  rw [← getGroup_groupPairs pairs k, groupSorted]
  induction groupPairs pairs with
  | nil => simp [getGroup, sortNat_nil]
  | cons e rest ih =>
      rw [List.map_cons, getGroup_cons, getGroup_cons]
      by_cases h : e.1 = k
      · simp [h]
      · simp [h, ih]

theorem keys_groupSorted (pairs : List ((Nat × Nat) × Nat)) :
    (groupSorted pairs).map Prod.fst = (groupPairs pairs).map Prod.fst := by
  simp [groupSorted, List.map_map, Function.comp]

theorem nodupKeys_groupSorted (pairs : List ((Nat × Nat) × Nat)) :
    ((groupSorted pairs).map Prod.fst).Nodup := by
  rw [keys_groupSorted]; exact nodupKeys_groupPairs pairs

theorem mem_groupSorted_iff (pairs : List ((Nat × Nat) × Nat))
    (k : Nat × Nat) (l : List Nat) :
    (k, l) ∈ groupSorted pairs ↔
      valuesFor k pairs ≠ [] ∧ l = sortNat (valuesFor k pairs) := by
  constructor
  · intro hm
    rcases List.mem_map.mp hm with ⟨e, he, heq⟩
    have h1 : e.1 = k := congrArg Prod.fst heq
    have h2 : sortNat e.2 = l := congrArg Prod.snd heq
    have hval : valuesFor k pairs = e.2 := by
      rw [← getGroup_groupPairs pairs k, ← h1]
      exact mem_of_nodupKeys _ _ _ (nodupKeys_groupPairs pairs) (by simpa using he)
    refine ⟨?_, by rw [hval, h2]⟩
    rw [hval]
    exact nonempty_values_groupPairs pairs e he
  · rintro ⟨hne, rfl⟩
    have hg : getGroup k (groupPairs pairs) ≠ [] := by
      rw [getGroup_groupPairs]; exact hne
    have hk : k ∈ (groupPairs pairs).map Prod.fst :=
      (getGroup_ne_nil_iff k _ (nonempty_values_groupPairs pairs)).mp hg
    have hmem : (k, getGroup k (groupPairs pairs)) ∈ groupPairs pairs :=
      mem_getGroup_self _ k hk
    have : (k, sortNat (getGroup k (groupPairs pairs))) ∈ groupSorted pairs :=
      List.mem_map.mpr ⟨(k, getGroup k (groupPairs pairs)), hmem, rfl⟩
    rwa [getGroup_groupPairs] at this

theorem spIndexOf_eq (triples : List Triple) :
    spIndexOf triples = groupSorted (spPairs triples) := by
  rw [spIndexOf, group_by_sp_po, List.zip_map']
  rfl

theorem poIndexOf_eq (triples : List Triple) :
    poIndexOf triples = groupSorted (poPairs triples) := by
  rw [poIndexOf, group_by_sp_po, List.zip_map']
  rfl

theorem mem_groupSorted_of_pair (pairs : List ((Nat × Nat) × Nat))
    (k : Nat × Nat) (v : Nat) (h : (k, v) ∈ pairs) :
    ∃ l, (k, l) ∈ groupSorted pairs ∧ v ∈ l := by
  have hv : v ∈ valuesFor k pairs := (mem_valuesFor k v pairs).mpr h
  have hne : valuesFor k pairs ≠ [] := List.ne_nil_of_mem hv
  exact ⟨sortNat (valuesFor k pairs),
    (mem_groupSorted_iff pairs k _).mpr ⟨hne, rfl⟩,
    (mem_sortNat v _).mpr hv⟩

theorem pair_of_mem_groupSorted (pairs : List ((Nat × Nat) × Nat))
    (k : Nat × Nat) (l : List Nat) (hm : (k, l) ∈ groupSorted pairs)
    (v : Nat) (hv : v ∈ l) : (k, v) ∈ pairs := by
  rcases (mem_groupSorted_iff pairs k l).mp hm with ⟨_, rfl⟩
  exact (mem_valuesFor k v pairs).mp ((mem_sortNat v _).mp hv)

theorem length_valuesFor (k : Nat × Nat) (pairs : List ((Nat × Nat) × Nat)) :
    (valuesFor k pairs).length = (pairs.filter fun kv => kv.1 = k).length := by
  simp [valuesFor]

/-- C6: every source row `(s, p, o)` is reflected in both grouped indexes
(`o` in the completion list of key `(s, p)` of the `sp` index, `s` in the
list of key `(p, o)` of the `po` index), and conversely every element of
every completion list of either index comes from at least one source row
with that key. -/
theorem C6_round_trip (triples : List Triple) :
    (∀ t ∈ triples,
        (∃ l, ((t.1, t.2.1), l) ∈ spIndexOf triples ∧ t.2.2 ∈ l) ∧
        (∃ l, ((t.2.1, t.2.2), l) ∈ poIndexOf triples ∧ t.1 ∈ l)) ∧
    (∀ k l, (k, l) ∈ spIndexOf triples → ∀ v ∈ l,
        ∃ t ∈ triples, (t.1, t.2.1) = k ∧ t.2.2 = v) ∧
    (∀ k l, (k, l) ∈ poIndexOf triples → ∀ v ∈ l,
        ∃ t ∈ triples, (t.2.1, t.2.2) = k ∧ t.1 = v) := by
  refine ⟨fun t ht => ⟨?_, ?_⟩, fun k l hm v hv => ?_, fun k l hm v hv => ?_⟩
  · rw [spIndexOf_eq]
    exact mem_groupSorted_of_pair _ _ _
      (List.mem_map.mpr ⟨t, ht, rfl⟩)
  · rw [poIndexOf_eq]
    exact mem_groupSorted_of_pair _ _ _
      (List.mem_map.mpr ⟨t, ht, rfl⟩)
  · rw [spIndexOf_eq] at hm
    have := pair_of_mem_groupSorted _ _ _ hm v hv
    rcases List.mem_map.mp this with ⟨t, ht, heq⟩
    exact ⟨t, ht, congrArg Prod.fst heq, congrArg Prod.snd heq⟩
  · rw [poIndexOf_eq] at hm
    have := pair_of_mem_groupSorted _ _ _ hm v hv
    rcases List.mem_map.mp this with ⟨t, ht, heq⟩
    exact ⟨t, ht, congrArg Prod.fst heq, congrArg Prod.snd heq⟩

/-- C6 witness: a concrete application of the round trip. -/
theorem C6_round_trip_witness :
    ∃ l, ((0, 0), l) ∈ spIndexOf [(0, 0, 1)] ∧ 1 ∈ l :=
  ((C6_round_trip [(0, 0, 1)]).1 (0, 0, 1) (List.mem_singleton.mpr rfl)).1

/-- C7: every completion list produced by the grouped-index builder is
non-decreasing, and its length equals the number of source rows carrying
that key (duplicates from duplicate rows are kept, nothing is
deduplicated). -/
theorem C7_sorted_groups (sp_po_list : List (Nat × Nat))
    (o_s_list : List Nat) :
    ∀ g ∈ group_by_sp_po sp_po_list o_s_list,
      List.Sorted (· ≤ ·) g.2 ∧
      g.2.length =
        ((sp_po_list.zip o_s_list).filter fun kv => kv.1 = g.1).length := by
  intro g hg
  obtain ⟨k, l⟩ := g
  rw [group_by_sp_po] at hg
  rcases (mem_groupSorted_iff _ _ _).mp hg with ⟨_, rfl⟩
  exact ⟨sortNat_sorted _, by rw [length_sortNat, length_valuesFor]⟩

/-- C7 witness: a concrete application (key `(0, 0)` with two duplicate
rows keeps both completions, sorted). -/
theorem C7_sorted_groups_witness :
    List.Sorted (· ≤ ·) ([1, 2] : List Nat) ∧ ([1, 2] : List Nat).length =
      (([((0 : Nat), (0 : Nat)), ((0 : Nat), (0 : Nat))].zip
          [(2 : Nat), (1 : Nat)]).filter
        fun kv => kv.1 = ((0 : Nat), (0 : Nat))).length :=
  C7_sorted_groups [(0, 0), (0, 0)] [2, 1] ((0, 0), [1, 2]) (by decide)

end KGE
namespace KGE

theorem length_cumsumFrom (a : Nat) (l : List Nat) :
    (cumsumFrom a l).length = l.length := by
  induction l generalizing a with
  | nil => rfl
  | cons x xs ih => simp [cumsumFrom, ih]

theorem cumsumFrom_shift (a b : Nat) (l : List Nat) :
    cumsumFrom (a + b) l = (cumsumFrom b l).map (a + ·) := by
  induction l generalizing b with
  | nil => rfl
  | cons x xs ih =>
      simp only [cumsumFrom, List.map_cons]
      rw [show a + b + x = a + (b + x) by omega, ih (b + x)]

theorem cumsum_cons_zero (ls : List Nat) :
    cumsum (0 :: ls) = 0 :: cumsumFrom 0 ls := by
  simp [cumsum, cumsumFrom]

theorem cumsumFrom_cons_eq (a : Nat) (ls : List Nat) :
    cumsumFrom 0 (a :: ls) = a :: (cumsumFrom 0 ls).map (a + ·) := by
  simp only [cumsumFrom, Nat.zero_add]
  rw [show a = a + 0 by omega, cumsumFrom_shift]
  simp

theorem getD_map_add (a : Nat) (c : List Nat) (j : Nat) (hj : j < c.length) :
    (c.map (a + ·)).getD j 0 = a + c.getD j 0 := by
  induction c generalizing j with
  | nil => simp at hj
  | cons x xs ih =>
      cases j with
      | zero => rfl
      | succ j =>
          have hj2 : j < xs.length := by simp at hj; omega
          simpa using ih j hj2

theorem cumsum_offsets_succ (a : Nat) (ls : List Nat) (i : Nat)
    (hi : i ≤ ls.length) :
    (cumsum (0 :: a :: ls)).getD (i + 1) 0 =
      a + (cumsum (0 :: ls)).getD i 0 := by
  rw [cumsum_cons_zero, cumsum_cons_zero, cumsumFrom_cons_eq]
  cases i with
  | zero => rfl
  | succ j =>
      have hj : j < (cumsumFrom 0 ls).length := by
        rw [length_cumsumFrom]; omega
      simpa using getD_map_add a (cumsumFrom 0 ls) j hj

theorem drop_append_add (x r : List Nat) (n : Nat) :
    (x ++ r).drop (x.length + n) = r.drop n := by
  induction x with
  | nil => simp
  | cons a x ih => simp [Nat.succ_add, ih]

theorem getLast?_cumsumFrom (a : Nat) (l : List Nat) (h : l ≠ []) :
    (cumsumFrom a l).getLast? = some (a + l.sum) := by
  induction l generalizing a with
  | nil => cases h rfl
  | cons x xs ih =>
      cases xs with
      | nil => simp [cumsumFrom]
      | cons y t =>
          rw [show cumsumFrom a (x :: y :: t) =
              (a + x) :: cumsumFrom (a + x) (y :: t) from rfl]
          rw [show cumsumFrom (a + x) (y :: t) =
              (a + x + y) :: cumsumFrom (a + x + y) t from rfl]
          rw [List.getLast?_cons_cons,
            show (a + x + y) :: cumsumFrom (a + x + y) t =
              cumsumFrom (a + x) (y :: t) from rfl]
          rw [ih (a + x) (by simp)]
          simp only [List.sum_cons]
          congr 1
          omega

theorem getLast?_cumsum_offsets (ls : List Nat) :
    (cumsum (0 :: ls)).getLast? = some ls.sum := by
  rw [cumsum]
  rw [getLast?_cumsumFrom 0 (0 :: ls) (by simp)]
  simp

theorem flatten_slice (ls : List (List Nat)) (i : Nat) (hi : i < ls.length) :
    ((ls.flatten).drop ((cumsum (0 :: ls.map List.length)).getD i 0)).take
        ((cumsum (0 :: ls.map List.length)).getD (i + 1) 0 -
          (cumsum (0 :: ls.map List.length)).getD i 0) =
      ls.get ⟨i, hi⟩ := by
  induction ls generalizing i with
  | nil => simp at hi
  | cons x ls ih =>
      cases i with
      | zero =>
          rw [List.map_cons, cumsum_cons_zero, cumsumFrom_cons_eq]
          simp only [List.getD_cons_zero, List.getD_cons_succ]
          rw [List.flatten_cons, Nat.sub_zero, List.drop_zero]
          exact List.take_left x ls.flatten
      | succ j =>
          have hj : j < ls.length := by simpa using hi
          rw [List.map_cons]
          rw [cumsum_offsets_succ x.length (ls.map List.length) (j + 1)
            (by rw [List.length_map]; omega)]
          rw [cumsum_offsets_succ x.length (ls.map List.length) j
            (by rw [List.length_map]; omega)]
          rw [List.flatten_cons, drop_append_add, Nat.add_sub_add_left]
          exact ih j hj

end KGE
namespace KGE

/-- C4 counterexample: on the empty grouped index `prepare_index` raises
(`torch.cat` on an empty list of tensors) instead of returning
`keys = [], values = [], offsets = [0]`. -/
theorem C4_counterexample :
    prepare_index ([] : GroupedIndex) ≠
      some (([] : List (Nat × Nat)), ([] : List Nat), [0]) := by
  simp [prepare_index]

/-- C4 (amended): `prepare_index` applied to an empty grouped index does
not return normally — the value-concatenation step rejects an empty list
of tensors — and it returns normally exactly on nonempty indexes. -/
theorem C4_empty_raises :
    prepare_index ([] : GroupedIndex) = none ∧
    ∀ index : GroupedIndex, index ≠ [] → (prepare_index index).isSome = true := by
  refine ⟨rfl, fun index h => ?_⟩
  cases index with
  | nil => cases h rfl
  | cons e rest => simp [prepare_index]

/-- C4 witness: `prepare_index` on a nonempty index returns normally. -/
theorem C4_empty_raises_witness :
    (prepare_index [((0, 0), [1])]).isSome = true :=
  C4_empty_raises.2 [((0, 0), [1])] (by decide)

/-- C5 counterexample: the claim quantifies over every grouped index, but
on the index with zero keys `prepare_index` produces no offsets at all
(it raises), refuting the claimed `m + 1`-length offsets at `m = 0`. -/
theorem C5_counterexample :
    (prepare_index ([] : GroupedIndex)).isNone = true := rfl

/-- C5 (amended): for every nonempty grouped index (whose completion
lists are sorted, as the builder guarantees) with `m` keys and total
completion count `T`, `prepare_index` returns keys in iteration order,
offsets of length `m + 1` starting at `0` and ending at `T = len(values)`,
and each offset slice of `values` is sorted and equals the corresponding
completion list. -/
theorem C5_compact_view (index : GroupedIndex) (hne : index ≠ [])
    (hsorted : ∀ g ∈ index, List.Sorted (· ≤ ·) g.2) :
    ∃ keys values offsets,
      prepare_index index = some (keys, values, offsets) ∧
      keys = index.map Prod.fst ∧
      offsets.length = index.length + 1 ∧
      offsets.getD 0 0 = 0 ∧
      offsets.getLast? = some values.length ∧
      values.length = (index.map fun g => g.2.length).sum ∧
      ∀ i, (hi : i < index.length) →
        (values.drop (offsets.getD i 0)).take
            (offsets.getD (i + 1) 0 - offsets.getD i 0) =
          (index.get ⟨i, hi⟩).2 ∧
        List.Sorted (· ≤ ·)
          ((values.drop (offsets.getD i 0)).take
            (offsets.getD (i + 1) 0 - offsets.getD i 0)) := by
  have hlen : ((index.map Prod.snd).flatten).length =
      (index.map fun g => g.2.length).sum := by
    rw [List.length_flatten, List.map_map]
    rfl
  have hmapmap : index.map (fun g => g.2.length) =
      (index.map Prod.snd).map List.length := by
    rw [List.map_map]; rfl
  refine ⟨index.map Prod.fst, (index.map Prod.snd).flatten,
    cumsum (0 :: index.map fun g => g.2.length), ?_, rfl, ?_, ?_, ?_, hlen, ?_⟩
  · cases index with
    | nil => cases hne rfl
    | cons e rest => simp [prepare_index]
  · rw [cumsum_cons_zero, List.length_cons, length_cumsumFrom,
      List.length_map]
  · rw [cumsum_cons_zero]; rfl
  · rw [getLast?_cumsum_offsets, hlen]
  · intro i hi
    have hi2 : i < (index.map Prod.snd).length := by
      rw [List.length_map]; exact hi
    have hslice := flatten_slice (index.map Prod.snd) i hi2
    rw [hmapmap]
    have hget : (index.map Prod.snd).get ⟨i, hi2⟩ = (index.get ⟨i, hi⟩).2 := by
      simp
    rw [hslice, hget]
    exact ⟨rfl, hsorted _ (index.get_mem i hi)⟩

/-- C5 witness: a concrete application of the amended compact-view
theorem. -/
theorem C5_compact_view_witness :
    ∃ keys values offsets,
      prepare_index [((0, 0), [1, 2]), ((1, 0), [2])] =
        some (keys, values, offsets) ∧
      keys = [(0, 0), (1, 0)] ∧ offsets.length = 3 ∧
      offsets.getLast? = some values.length := by
  obtain ⟨keys, values, offsets, h1, h2, h3, _, h5, _, _⟩ :=
    C5_compact_view [((0, 0), [1, 2]), ((1, 0), [2])] (by decide)
      (by decide)
  exact ⟨keys, values, offsets, h1, by rw [h2]; rfl, h3, h5⟩

end KGE
namespace KGE

theorem applyStats_ok_iff (nr : Nat) (getP : Nat × Nat → Nat)
    (entries : List ((Nat × Nat) × List Nat)) (stats : Nat → Nat × Nat) :
    (applyStats nr getP entries stats).isOk = true ↔
      ∀ e ∈ entries, getP e.1 < nr := by
  induction entries generalizing stats with
  | nil => simp [applyStats, Except.isOk, Except.toBool]
  | cons g rest ih =>
      by_cases h : getP g.1 < nr
      · rw [show applyStats nr getP (g :: rest) stats =
            applyStats nr getP rest (statStep stats (getP g.1) g.2.sum) from
            by rw [applyStats]; simp [h]]
        rw [ih]
        simp [h]
      · rw [show applyStats nr getP (g :: rest) stats = .error () from
            by rw [applyStats]; simp [h]]
        simp [Except.isOk, Except.toBool, h]

theorem applyStats_untouched (nr : Nat) (getP : Nat × Nat → Nat)
    (entries : List ((Nat × Nat) × List Nat)) (stats s : Nat → Nat × Nat)
    (q : Nat) (hok : applyStats nr getP entries stats = .ok s)
    (habs : ∀ e ∈ entries, getP e.1 ≠ q) : s q = stats q := by
  induction entries generalizing stats with
  | nil =>
      rw [applyStats] at hok
      cases hok
      rfl
  | cons g rest ih =>
      rw [applyStats] at hok
      by_cases h : getP g.1 < nr
      · rw [if_pos h] at hok
        have := ih (statStep stats (getP g.1) g.2.sum) hok
          (fun e he => habs e (List.mem_cons_of_mem _ he))
        rw [this, statStep, if_neg]
        exact fun hh => habs g (List.mem_cons_self _ _) hh.symm
      · rw [if_neg h] at hok
        cases hok

theorem get_relation_types_shape (nr : Nat) (train : List Triple)
    (f : Nat → String) (h : get_relation_types nr train = .ok f) :
    ∃ outS inS,
      applyStats nr (fun k => k.2) (spIndexOf train) (fun _ => (0, 0)) =
          .ok outS ∧
      applyStats nr (fun k => k.1) (poIndexOf train) (fun _ => (0, 0)) =
          .ok inS ∧
      f = fun i =>
        (if exceeds (inS i).1 (inS i).2 then "M" else "1") ++ "-" ++
        (if exceeds (outS i).1 (outS i).2 then "N" else "1") := by
  rw [get_relation_types] at h
  cases h1 : applyStats nr (fun k => k.2) (spIndexOf train) (fun _ => (0, 0)) with
  | error e => rw [h1] at h; simp [Bind.bind, Except.bind] at h
  | ok outS =>
      rw [h1] at h
      cases h2 : applyStats nr (fun k => k.1) (poIndexOf train)
          (fun _ => (0, 0)) with
      | error e => rw [h2] at h; simp [Bind.bind, Except.bind] at h
      | ok inS =>
          rw [h2] at h
          simp only [Bind.bind, Except.bind, Pure.pure, Except.pure,
            Except.ok.injEq] at h
          exact ⟨outS, inS, rfl, rfl, h.symm⟩

end KGE
namespace KGE

theorem key_of_mem_groupSorted (pairs : List ((Nat × Nat) × Nat))
    (e : (Nat × Nat) × List Nat) (he : e ∈ groupSorted pairs) :
    ∃ v, (e.1, v) ∈ pairs := by
  obtain ⟨k, l⟩ := e
  rcases (mem_groupSorted_iff pairs k l).mp he with ⟨hne, rfl⟩
  rcases List.exists_mem_of_ne_nil _ hne with ⟨v, hv⟩
  exact ⟨v, (mem_valuesFor k v pairs).mp hv⟩

theorem sp_keys_lt (nr : Nat) (train : List Triple)
    (hall : ∀ t ∈ train, t.2.1 < nr) :
    ∀ e ∈ spIndexOf train, e.1.2 < nr := by
  intro e he
  rw [spIndexOf_eq] at he
  rcases key_of_mem_groupSorted _ e he with ⟨v, hv⟩
  rcases List.mem_map.mp hv with ⟨t, ht, heq⟩
  have h1 : (t.1, t.2.1) = e.1 := congrArg Prod.fst heq
  have h2 : t.2.1 = e.1.2 := congrArg Prod.snd h1
  rw [← h2]
  exact hall t ht

theorem po_keys_lt (nr : Nat) (train : List Triple)
    (hall : ∀ t ∈ train, t.2.1 < nr) :
    ∀ e ∈ poIndexOf train, e.1.1 < nr := by
  intro e he
  rw [poIndexOf_eq] at he
  rcases key_of_mem_groupSorted _ e he with ⟨v, hv⟩
  rcases List.mem_map.mp hv with ⟨t, ht, heq⟩
  have h1 : (t.2.1, t.2.2) = e.1 := congrArg Prod.fst heq
  have h2 : t.2.1 = e.1.1 := congrArg Prod.fst h1
  rw [← h2]
  exact hall t ht

theorem sp_keys_ne (p : Nat) (train : List Triple)
    (habs : ∀ t ∈ train, t.2.1 ≠ p) :
    ∀ e ∈ spIndexOf train, e.1.2 ≠ p := by
  intro e he
  rw [spIndexOf_eq] at he
  rcases key_of_mem_groupSorted _ e he with ⟨v, hv⟩
  rcases List.mem_map.mp hv with ⟨t, ht, heq⟩
  have h2 : t.2.1 = e.1.2 :=
    congrArg Prod.snd (congrArg Prod.fst heq)
  rw [← h2]
  exact habs t ht

theorem po_keys_ne (p : Nat) (train : List Triple)
    (habs : ∀ t ∈ train, t.2.1 ≠ p) :
    ∀ e ∈ poIndexOf train, e.1.1 ≠ p := by
  intro e he
  rw [poIndexOf_eq] at he
  rcases key_of_mem_groupSorted _ e he with ⟨v, hv⟩
  rcases List.mem_map.mp hv with ⟨t, ht, heq⟩
  have h2 : t.2.1 = e.1.1 :=
    congrArg Prod.fst (congrArg Prod.fst heq)
  rw [← h2]
  exact habs t ht

theorem pred_lt_of_sp_keys (nr : Nat) (train : List Triple)
    (hkeys : ∀ e ∈ spIndexOf train, e.1.2 < nr) :
    ∀ t ∈ train, t.2.1 < nr := by
  intro t ht
  have hp : ((t.1, t.2.1), t.2.2) ∈ spPairs train :=
    List.mem_map.mpr ⟨t, ht, rfl⟩
  rcases mem_groupSorted_of_pair _ _ _ hp with ⟨l, hl, _⟩
  rw [← spIndexOf_eq] at hl
  exact hkeys ((t.1, t.2.1), l) hl

end KGE
namespace KGE

theorem get_relation_types_isOk_iff (nr : Nat) (train : List Triple) :
    (get_relation_types nr train).isOk = true ↔ ∀ t ∈ train, t.2.1 < nr := by
  constructor
  · intro h
    rw [get_relation_types] at h
    cases h1 : applyStats nr (fun k => k.2) (spIndexOf train)
        (fun _ => (0, 0)) with
    | error e => rw [h1] at h; simp [Bind.bind, Except.bind, Except.isOk,
        Except.toBool] at h
    | ok outS =>
        have : (applyStats nr (fun k => k.2) (spIndexOf train)
            (fun _ => (0, 0))).isOk = true := by
          rw [h1]; rfl
        exact pred_lt_of_sp_keys nr train
          (fun e he => (applyStats_ok_iff nr _ _ _).mp this e he)
  · intro hall
    rw [get_relation_types]
    have h1 : (applyStats nr (fun k => k.2) (spIndexOf train)
        (fun _ => (0, 0))).isOk = true :=
      (applyStats_ok_iff nr _ _ _).mpr
        (fun e he => sp_keys_lt nr train hall e he)
    have h2 : (applyStats nr (fun k => k.1) (poIndexOf train)
        (fun _ => (0, 0))).isOk = true :=
      (applyStats_ok_iff nr _ _ _).mpr
        (fun e he => po_keys_lt nr train hall e he)
    cases hs1 : applyStats nr (fun k => k.2) (spIndexOf train)
        (fun _ => (0, 0)) with
    | error e => rw [hs1] at h1; simp [Except.isOk, Except.toBool] at h1
    | ok outS =>
        cases hs2 : applyStats nr (fun k => k.1) (poIndexOf train)
            (fun _ => (0, 0)) with
        | error e => rw [hs2] at h2; simp [Except.isOk, Except.toBool] at h2
        | ok inS =>
            simp [hs1, hs2, Bind.bind, Except.bind, Pure.pure, Except.pure,
              Except.isOk, Except.toBool]

/-- C10 counterexample: a training triple whose subject (5) and object
(7) both exceed `num_entities = 3` is accepted silently — `Dataset`
construction succeeds, builds the indexes over the out-of-range ids and
classifies relation 0, with no error at construction or on index
access. -/
theorem C10_counterexample :
    (3 ≤ 5 ∧ 3 ≤ 7) ∧
      (datasetInit 3 1 [(5, 0, 7)] [] []).isOk = true := by
  exact ⟨⟨by decide, by decide⟩, rfl⟩

/-- C10 (amended): construction fails fast exactly when some training
triple's predicate is `≥ num_relations` (the statistics-tensor row write
is out of bounds); subject/object identifiers are never compared against
`num_entities`, and the validation/test splits are not examined at
construction. -/
theorem C10_pred_range (ne nr : Nat) (train valid test : List Triple) :
    (datasetInit ne nr train valid test).isOk = true ↔
      ∀ t ∈ train, t.2.1 < nr := by
  rw [← get_relation_types_isOk_iff nr train, datasetInit]
  cases h : get_relation_types nr train with
  | error e => simp [h, Except.map, Except.isOk, Except.toBool]
  | ok f => simp [h, Except.map, Except.isOk, Except.toBool]

/-- C10 witness: the amended equivalence applied concretely — a
predicate id 3 with `num_relations = 2` makes construction fail. -/
theorem C10_pred_range_witness :
    (datasetInit 3 2 [(5, 3, 7)] [] []).isOk = false := by
  have h := (C10_pred_range 3 2 [(5, 3, 7)] [] []).not
  simp only [Bool.not_eq_true] at h
  exact h.mpr (by decide)

end KGE
namespace KGE

/-- C2 counterexample: two training triples `(3,0,1), (4,0,1)` give the
`po` group `(0,1) ↦ [3,4]`, whose id-sum statistic 7 over 1 group
exceeds 1.5, so relation 0 is labelled `"M-1"` — the subject side uses
the character `'M'`, not `'N'`, so the label is outside the claimed set
`{1-1, 1-N, N-1, N-N}`. -/
theorem C2_counterexample :
    (get_relation_types 1 [(3, 0, 1), (4, 0, 1)]).map (fun f => f 0) =
        .ok "M-1" ∧
    ("M-1" ≠ "1-1" ∧ "M-1" ≠ "1-N" ∧ "M-1" ≠ "N-1" ∧ "M-1" ≠ "N-N") := by
  exact ⟨rfl, by decide, by decide, by decide, by decide⟩

/-- C2 (amended): every label the classifier stores is one of exactly
the four strings `"1-1"`, `"1-N"`, `"M-1"`, `"M-N"`, formed as
`"{subject-side}-{object-side}"` where the subject side is `'M'` (not
`'N'`) when its statistic quotient exceeds the strict threshold 1.5 and
`'1'` otherwise, and the object side is `'N'` when its quotient exceeds
1.5 and `'1'` otherwise. -/
theorem C2_label_shape (nr : Nat) (train : List Triple) (p : Nat)
    (h : (get_relation_types nr train).isOk = true) :
    (get_relation_types nr train).map (fun f => f p) = .ok "1-1" ∨
    (get_relation_types nr train).map (fun f => f p) = .ok "1-N" ∨
    (get_relation_types nr train).map (fun f => f p) = .ok "M-1" ∨
    (get_relation_types nr train).map (fun f => f p) = .ok "M-N" := by
  cases hE : get_relation_types nr train with
  | error e => rw [hE] at h; simp [Except.isOk, Except.toBool] at h
  | ok f =>
      obtain ⟨outS, inS, _, _, rfl⟩ := get_relation_types_shape nr train f hE
      simp only [Except.map]
      rcases Bool.eq_false_or_eq_true (exceeds (inS p).1 (inS p).2) with
        h1 | h1 <;>
      rcases Bool.eq_false_or_eq_true (exceeds (outS p).1 (outS p).2) with
        h2 | h2 <;>
      simp only [h1, h2, if_true, if_false, Bool.false_eq_true]
      · right; right; right; rfl
      · right; right; left; rfl
      · right; left; rfl
      · left; rfl

/-- C2 witness: the amended label-shape theorem applied to a concrete
single-triple dataset. -/
theorem C2_label_shape_witness :
    (get_relation_types 1 [(0, 0, 1)]).map (fun f => f 0) = .ok "1-1" ∨
    (get_relation_types 1 [(0, 0, 1)]).map (fun f => f 0) = .ok "1-N" ∨
    (get_relation_types 1 [(0, 0, 1)]).map (fun f => f 0) = .ok "M-1" ∨
    (get_relation_types 1 [(0, 0, 1)]).map (fun f => f 0) = .ok "M-N" :=
  C2_label_shape 1 [(0, 0, 1)] 0 rfl

/-- C9: a predicate absent from the training split (equivalently, with
zero groups on either grouping side, since every training triple feeds
both indexes) raises no error and is labelled `"1-1"`: its statistics
rows stay `(0, 0)` and the `0/0` (`NaN`) averages do not exceed the 1.5
threshold, so both sides classify as `'1'`. -/
theorem C9_absent_relation (nr : Nat) (train : List Triple) (p : Nat)
    (hall : ∀ t ∈ train, t.2.1 < nr) (habs : ∀ t ∈ train, t.2.1 ≠ p) :
    (get_relation_types nr train).map (fun f => f p) = .ok "1-1" := by
  cases hE : get_relation_types nr train with
  | error e =>
      have : (get_relation_types nr train).isOk = true :=
        (get_relation_types_isOk_iff nr train).mpr hall
      rw [hE] at this
      simp [Except.isOk, Except.toBool] at this
  | ok f =>
      obtain ⟨outS, inS, hout, hin, rfl⟩ :=
        get_relation_types_shape nr train f hE
      have houtp : outS p = (0, 0) :=
        applyStats_untouched nr _ _ _ _ p hout
          (fun e he => sp_keys_ne p train habs e he)
      have hinp : inS p = (0, 0) :=
        applyStats_untouched nr _ _ _ _ p hin
          (fun e he => po_keys_ne p train habs e he)
      simp only [Except.map, houtp, hinp]
      rfl

/-- C9 witness: relation 1 never occurs in the single-triple training
split (whose only predicate is 0) and is labelled `"1-1"`. -/
theorem C9_absent_relation_witness :
    (get_relation_types 2 [(0, 0, 1)]).map (fun f => f 1) = .ok "1-1" :=
  C9_absent_relation 2 [(0, 0, 1)] 1 (by decide) (by decide)

end KGE
namespace KGE

/-- C1 (code bug): for the single training triple `(0, 0, 5)`, the spec's
statistics are `out_total[0] = 1` (one completion) and
`out_groups[0] = 1`, giving `avg_out = 1 ≤ 1.5` and an object side of
`'1'`; the code instead stores `labels.float().sum()` — the sum of the
completion identifiers, here `5` — by assignment rather than
accumulation, so its quotient `5 / 1 > 1.5` misclassifies the object side
as `'N'` and relation 0 as `"1-N"`. -/
theorem C1_out_stat_eval :
    (applyStats 1 (fun k => k.2) (spIndexOf [(0, 0, 5)])
        (fun _ => (0, 0))).map (fun s => s 0) = .ok (5, 1) ∧
    outTotalSpec [(0, 0, 5)] 0 = 1 ∧
    outGroupsSpec [(0, 0, 5)] 0 = 1 ∧
    (get_relation_types 1 [(0, 0, 5)]).map (fun f => f 0) = .ok "1-N" :=
  ⟨rfl, rfl, rfl, rfl⟩

/-- C3 (code bug): on a `Dataset` whose training split is empty, the
first `index_1toN('train', 'sp')` call builds and caches the empty
grouped index, yet the second call builds again — the guard
`if not self.indexes.get(name)` treats the cached empty dict as absent,
so the at-most-once-build guarantee fails for empty splits. -/
theorem C3_rebuild_eval :
    ((index_1toN ⟨0, 0, [], [], [], []⟩ "train" "sp").2.1.indexes.lookup
        "train_sp" = some []) ∧
    (index_1toN ⟨0, 0, [], [], [], []⟩ "train" "sp").2.2 = true ∧
    (index_1toN (index_1toN ⟨0, 0, [], [], [], []⟩ "train" "sp").2.1
        "train" "sp").2.2 = true :=
  ⟨rfl, rfl, rfl⟩

/-- C8: an unrecognized split or direction raises `ValueError` (the
spec's `InvalidArgument`) before the cache is consulted: the call returns
the error, the `Dataset` — including its index cache — is unchanged, and
no build happens. -/
theorem C8_invalid_args (d : Dataset) (split sp_po : String)
    (h : (split ≠ "train" ∧ split ≠ "valid" ∧ split ≠ "test") ∨
         (sp_po ≠ "sp" ∧ sp_po ≠ "po")) :
    index_1toN d split sp_po = (.error (), d, false) := by
  rcases h with ⟨h1, h2, h3⟩ | ⟨h1, h2⟩
  · simp [index_1toN, h1, h2, h3]
  · by_cases s1 : split = "train" <;> by_cases s2 : split = "valid" <;>
      by_cases s3 : split = "test" <;>
      simp [index_1toN, s1, s2, s3, h1, h2]

/-- C8 witness: concrete invalid split and direction both rejected with
the cache untouched. -/
theorem C8_invalid_args_witness :
    index_1toN ⟨0, 0, [], [], [], []⟩ "bogus" "sp" =
        (.error (), ⟨0, 0, [], [], [], []⟩, false) ∧
    index_1toN ⟨0, 0, [], [], [], []⟩ "train" "xy" =
        (.error (), ⟨0, 0, [], [], [], []⟩, false) :=
  ⟨C8_invalid_args _ "bogus" "sp"
      (Or.inl ⟨by decide, by decide, by decide⟩),
    C8_invalid_args _ "train" "xy" (Or.inr ⟨by decide, by decide⟩)⟩

end KGE
